import Mathlib

/-!
Verification of `phraseless/certificates.py`.

Byte strings are modelled as `List Nat` with entries below 256.  A
`Certificate` mirrors the Python 3-tuple `(name, public_key, signature)`;
the `VerifyingKey` wrapper of the ed25519 library is represented by the
32 raw bytes it carries (`VerifyingKey(b)` is the identity, `to_bytes`
is the identity), since the library compares keys by their bytes.
-/

set_option maxRecDepth 20000

namespace Phraseless

/-- A list of naturals is a valid byte string when every entry is below 256. -/
def ValidBytes (l : List Nat) : Prop := ∀ x ∈ l, x < 256

instance (l : List Nat) : Decidable (ValidBytes l) :=
  List.decidableBAll (fun x => x < 256) l

/-- Models `struct.pack('Ns', b)` for a single field of width `w`:
the byte string is truncated or padded with null bytes to exactly `w` bytes. -/
def packBytes (w : Nat) (b : List Nat) : List Nat :=
  b.take w ++ List.replicate (w - b.length) 0

/-- Models `_null_terminated` composed with a field getter, i.e.
`ctypes.create_string_buffer(b).value`: the part of `b` before its first
null byte. -/
def nullTerminatedValue (b : List Nat) : List Nat :=
  b.takeWhile (fun x => x != 0)

/-- `Certificate = (name bytes, public-key bytes, signature bytes)`,
mirroring the Python tuple type (the `VerifyingKey` in the middle slot is
represented by its 32 raw bytes). -/
abbrev Certificate := List Nat × List Nat × List Nat

/-- Models `get_name = _null_terminated(itemgetter(0))`. -/
def getName (cert : Certificate) : List Nat := nullTerminatedValue cert.1

/-- Models `get_public_key = itemgetter(1)` (identifying a `VerifyingKey`
with its raw bytes). -/
def getPublicKey (cert : Certificate) : List Nat := cert.2.1

/-- Models `get_signature = itemgetter(2)`. -/
def getSignature (cert : Certificate) : List Nat := cert.2.2

/-- Modelled from the spec: the exceptions the external ed25519 primitive
can raise during verification and that `verify_certificate` /
`verify_challenge` catch — `AssertionError` (malformed signature shape)
and `BadSignatureError` (the signature does not check out). -/
inductive PrimError where
  | assertionError : PrimError
  | badSignature : PrimError
deriving DecidableEq

/-- Modelled from the spec: the external ed25519 primitive's
`privkey.sign(message)`.  The primitive is out of scope for the repository
("raw sign(message, privkey) → signature"), so it is embedded as an ideal
symbolic scheme: the signing key is identified with the bytes of its
corresponding verifying key, and a signature records exactly the key and
the message it was produced over. -/
def ed25519Sign (sk msg : List Nat) : List Nat := sk ++ msg

/-- Modelled from the spec: the external ed25519 primitive's
`VerifyingKey.verify(signature, message)`, which raises `AssertionError`
on a malformed signature shape and `BadSignatureError` on an invalid
signature, and returns normally exactly when `signature` was produced
over `message` by the signing key matching `vk` (the spec assumes the
scheme is complete and tamper-sensitive). -/
def ed25519VerifyE (vk sig msg : List Nat) : Except PrimError Unit :=
  if sig.length ≠ vk.length + msg.length then .error .assertionError
  else if sig = vk ++ msg then .ok ()
  else .error .badSignature

/-- Models `create_certificate(name, pubkey, privkey)`: signs
`struct.pack('255s32s', name, pubkey.to_bytes())` with the issuer's
private key and returns the tuple `(name, pubkey, signature)`. -/
def createCertificate (name pk sk : List Nat) : Certificate :=
  (name, pk, ed25519Sign sk (packBytes 255 name ++ packBytes 32 pk))

/-- Models `verify_challenge(challenge, signature, cert)` with its
exception flow made explicit: the `try` body is
`get_public_key(cert).verify(signature, challenge)` and the `except`
clause catches `(AssertionError, BadSignatureError)` and returns `False`. -/
def verifyChallengeE (challenge sig : List Nat) (cert : Certificate) :
    Except PrimError Bool :=
  match ed25519VerifyE (getPublicKey cert) sig challenge with
  | .ok () => .ok true
  | .error .assertionError => .ok false
  | .error .badSignature => .ok false

/-- The boolean view of `verify_challenge` (an uncaught exception, were
one possible, is collapsed to `false`; the theorems show the error branch
is unreachable). -/
def verifyChallenge (challenge sig : List Nat) (cert : Certificate) : Bool :=
  match verifyChallengeE challenge sig cert with
  | .ok b => b
  | .error _ => false

/-- Models `verify_certificate(cert, ca)` with its exception flow made
explicit: the `try` body is
`get_public_key(ca).verify(get_signature(cert), struct.pack('255s32s', get_name(cert), get_public_key(cert).to_bytes()))`
and the `except` clause catches `(AssertionError, BadSignatureError)`
and returns `False`. -/
def verifyCertificateE (cert ca : Certificate) : Except PrimError Bool :=
  match ed25519VerifyE (getPublicKey ca) (getSignature cert)
      (packBytes 255 (getName cert) ++ packBytes 32 (getPublicKey cert)) with
  | .ok () => .ok true
  | .error .assertionError => .ok false
  | .error .badSignature => .ok false

/-- The boolean view of `verify_certificate`. -/
def verifyCertificate (cert ca : Certificate) : Bool :=
  match verifyCertificateE cert ca with
  | .ok b => b
  | .error _ => false

/-- Models `verify_certificate_chain(chain, trusted)`.  For a chain of
length above one the links are the adjacent pairs
`(chain[i], chain[i+1])`; otherwise the single link `(chain[0], chain[0])`,
which on an empty chain raises `IndexError` — modelled as `none`.  The
result is `all` of the links conjoined with `any` of the checks of
`chain[-1]` against the trusted certificates. -/
def verifyCertificateChain (chain trusted : List Certificate) : Option Bool :=
  match chain with
  | [] => none
  | c :: rest =>
    some (((if rest.isEmpty then [(c, c)] else (c :: rest).zip rest).all
            (fun l => verifyCertificate l.1 l.2)) &&
          (trusted.any
            (fun ca => verifyCertificate
              ((c :: rest).getLast (List.cons_ne_nil c rest)) ca)))

/-- The base64 alphabet: sextet index to ASCII code. -/
def b64Char (i : Nat) : Nat :=
  if i < 26 then 65 + i
  else if i < 52 then 97 + (i - 26)
  else if i < 62 then 48 + (i - 52)
  else if i = 62 then 43
  else 47

/-- Inverse of the base64 alphabet: ASCII code to sextet index. -/
def b64Index (c : Nat) : Nat :=
  if 65 ≤ c ∧ c ≤ 90 then c - 65
  else if 97 ≤ c ∧ c ≤ 122 then c - 97 + 26
  else if 48 ≤ c ∧ c ≤ 57 then c - 48 + 52
  else if c = 43 then 62
  else 63

/-- Models `base64.b64encode` on a byte string: three input bytes become
four alphabet characters, with `=` (ASCII 61) padding for a final group
of one or two bytes. -/
def b64encode : List Nat → List Nat
  | [] => []
  | [a] => [b64Char (a / 4), b64Char (a % 4 * 16), 61, 61]
  | [a, b] => [b64Char (a / 4), b64Char (a % 4 * 16 + b / 16),
               b64Char (b % 16 * 4), 61]
  | a :: b :: c :: rest =>
      b64Char (a / 4) :: b64Char (a % 4 * 16 + b / 16) ::
      b64Char (b % 16 * 4 + c / 64) :: b64Char (c % 64) :: b64encode rest

/-- Models `base64.b64decode` on a well-formed base64 string: each group
of four characters yields three bytes, or fewer in a final `=`-padded
group. -/
def b64decode : List Nat → List Nat
  | c1 :: c2 :: c3 :: c4 :: rest =>
    if c3 = 61 then
      [b64Index c1 * 4 + b64Index c2 / 16]
    else if c4 = 61 then
      [b64Index c1 * 4 + b64Index c2 / 16,
       b64Index c2 % 16 * 16 + b64Index c3 / 4]
    else
      (b64Index c1 * 4 + b64Index c2 / 16) ::
      (b64Index c2 % 16 * 16 + b64Index c3 / 4) ::
      (b64Index c3 % 4 * 64 + b64Index c4) :: b64decode rest
  | _ => []

/-- Models `serialize_certificate(cert)`:
`b64encode(struct.pack('255s32s64s', get_name(cert), get_public_key(cert).to_bytes(), get_signature(cert)))`. -/
def serializeCertificate (cert : Certificate) : List Nat :=
  b64encode (packBytes 255 (getName cert) ++ packBytes 32 (getPublicKey cert) ++
             packBytes 64 (getSignature cert))

/-- Models `deserialize_certificate(serialized_cert)`:
`struct.unpack('255s32s64s', b64decode(serialized_cert))` (which raises
`struct.error` unless the decoded buffer is exactly 351 bytes — modelled
as `none`), then the accessors applied to the raw field tuple:
`get_name` strips at the first null byte, `VerifyingKey` wraps the 32 raw
key bytes, `get_signature` returns the 64 raw signature bytes. -/
def deserializeCertificate (s : List Nat) : Option Certificate :=
  if (b64decode s).length = 255 + 32 + 64 then
    some (nullTerminatedValue ((b64decode s).take 255),
          ((b64decode s).drop 255).take 32,
          (((b64decode s).drop 255).drop 32).take 64)
  else none

/-- One code point encoded as UTF-8 bytes (models Python `str.encode()`
per character). -/
def utf8EncodeChar (c : Nat) : List Nat :=
  if c < 128 then [c]
  else if c < 2048 then [192 + c / 64, 128 + c % 64]
  else if c < 65536 then [224 + c / 4096, 128 + c / 64 % 64, 128 + c % 64]
  else [240 + c / 262144, 128 + c / 4096 % 64, 128 + c / 64 % 64, 128 + c % 64]

/-- Models Python `str.encode()`: a string, represented as its list of
code points, encoded to UTF-8 bytes. -/
def utf8Encode (s : List Nat) : List Nat :=
  s.foldr (fun c acc => utf8EncodeChar c ++ acc) []

/-- Models Python `bytes.decode()`: strict UTF-8 decoding of a byte string
to its list of code points, `none` on invalid input (where Python raises
`UnicodeDecodeError`). -/
def utf8Decode : List Nat → Option (List Nat)
  | [] => some []
  | b0 :: rest =>
    if b0 < 128 then
      (utf8Decode rest).map (fun s => b0 :: s)
    else if b0 < 194 then
      none
    else if b0 < 224 then
      match rest with
      | [] => none
      | b1 :: rest2 =>
        if 128 ≤ b1 ∧ b1 < 192 then
          (utf8Decode rest2).map (fun s => ((b0 - 192) * 64 + (b1 - 128)) :: s)
        else none
    else if b0 < 240 then
      match rest with
      | b1 :: b2 :: rest3 =>
        let c := (b0 - 224) * 4096 + (b1 - 128) * 64 + (b2 - 128)
        if (128 ≤ b1 ∧ b1 < 192) ∧ (128 ≤ b2 ∧ b2 < 192) ∧ 2048 ≤ c ∧
            ¬(55296 ≤ c ∧ c < 57344) then
          (utf8Decode rest3).map (fun s => c :: s)
        else none
      | _ => none
    else if b0 < 245 then
      match rest with
      | b1 :: b2 :: b3 :: rest4 =>
        let c := (b0 - 240) * 262144 + (b1 - 128) * 4096 +
                 (b2 - 128) * 64 + (b3 - 128)
        if (128 ≤ b1 ∧ b1 < 192) ∧ (128 ≤ b2 ∧ b2 < 192) ∧
            (128 ≤ b3 ∧ b3 < 192) ∧ 65536 ≤ c ∧ c < 1114112 then
          (utf8Decode rest4).map (fun s => c :: s)
        else none
      | _ => none
    else none

/-- Models `encode_certificate(name, pubkey, signature)`:
`(name.decode(), b64encode(pubkey.to_bytes()).decode(), b64encode(signature).decode())`
— `none` when `name.decode()` raises.  The `.decode()` on the base64
outputs is the identity on the ASCII codes. -/
def encodeCertificate (name pk sig : List Nat) :
    Option (List Nat × List Nat × List Nat) :=
  (utf8Decode name).map (fun s => (s, b64encode pk, b64encode sig))

/-- Models `decode_certificate(name, public_key, signature)`:
`(name.encode(), VerifyingKey(b64decode(public_key)), b64decode(signature.encode()))`. -/
def decodeCertificate (name pk sig : List Nat) : Certificate :=
  (utf8Encode name, b64decode pk, b64decode sig)

/-- Following the spec's words only (for comparison with the code): a name
with its trailing null/padding bytes stripped. -/
def stripTrailingZeros (l : List Nat) : List Nat :=
  (l.reverse.dropWhile (fun x => x == 0)).reverse

/-! ## Helper lemmas -/

theorem packBytes_length (w : Nat) (b : List Nat) : (packBytes w b).length = w := by
  simp [packBytes]
  omega

theorem packBytes_eq_self (w : Nat) (b : List Nat) (h : b.length = w) :
    packBytes w b = b := by
  simp [packBytes, List.take_of_length_le (Nat.le_of_eq h), h]

theorem takeWhile_append_all (p : Nat → Bool) (l₁ l₂ : List Nat)
    (h : ∀ x ∈ l₁, p x) :
    (l₁ ++ l₂).takeWhile p = l₁ ++ l₂.takeWhile p := by
  induction l₁ with
  | nil => simp
  | cons a t ih =>
    have ha : p a := h a (by simp)
    simp [List.takeWhile_cons, ha]
    exact ih fun x hx => h x (by simp [hx])

theorem takeWhile_replicate_zero (n : Nat) :
    (List.replicate n 0).takeWhile (fun x => x != 0) = [] := by
  cases n <;> simp [List.replicate, List.takeWhile_cons]

theorem validBytes_append (a b : List Nat) (ha : ValidBytes a)
    (hb : ValidBytes b) : ValidBytes (a ++ b) := by
  intro x hx
  rcases List.mem_append.mp hx with hx | hx
  · exact ha x hx
  · exact hb x hx

theorem validBytes_packBytes (w : Nat) (b : List Nat) (h : ValidBytes b) :
    ValidBytes (packBytes w b) := by
  intro x hx
  rcases List.mem_append.mp hx with hx | hx
  · exact h x ((List.take_sublist w b).subset hx)
  · rw [List.eq_of_mem_replicate hx]; omega

theorem validBytes_takeWhile (p : Nat → Bool) (b : List Nat)
    (h : ValidBytes b) : ValidBytes (b.takeWhile p) :=
  fun x hx => h x ((List.takeWhile_sublist p).subset hx)

theorem b64Index_b64Char : ∀ i < 64, b64Index (b64Char i) = i := by decide

theorem b64Char_ne_pad (i : Nat) : b64Char i ≠ 61 := by
  unfold b64Char
  split_ifs <;> omega

/-- Decoding inverts encoding on every valid byte string. -/
theorem b64decode_b64encode (l : List Nat) (h : ValidBytes l) :
    b64decode (b64encode l) = l := by
  induction l using b64encode.induct with
  | case1 => rfl
  | case2 a =>
    have ha : a < 256 := h a (by simp)
    have h1 := b64Index_b64Char (a / 4) (by omega)
    have h2 := b64Index_b64Char (a % 4 * 16) (by omega)
    simp [b64encode, b64decode, h1, h2]
    omega
  | case3 a b =>
    have ha : a < 256 := h a (by simp)
    have hb : b < 256 := h b (by simp)
    have h1 := b64Index_b64Char (a / 4) (by omega)
    have h2 := b64Index_b64Char (a % 4 * 16 + b / 16) (by omega)
    have h3 := b64Index_b64Char (b % 16 * 4) (by omega)
    simp [b64encode, b64decode, if_neg (b64Char_ne_pad (b % 16 * 4)), h1, h2, h3]
    omega
  | case4 a b c rest ih =>
    have ha : a < 256 := h a (by simp)
    have hb : b < 256 := h b (by simp)
    have hc : c < 256 := h c (by simp)
    have hrest : ValidBytes rest := fun x hx => h x (by simp [hx])
    have h1 := b64Index_b64Char (a / 4) (by omega)
    have h2 := b64Index_b64Char (a % 4 * 16 + b / 16) (by omega)
    have h3 := b64Index_b64Char (b % 16 * 4 + c / 64) (by omega)
    have h4 := b64Index_b64Char (c % 64) (by omega)
    simp [b64encode, b64decode, if_neg (b64Char_ne_pad (b % 16 * 4 + c / 64)),
      if_neg (b64Char_ne_pad (c % 64)), h1, h2, h3, h4, ih hrest]
    omega

/-- `verify_certificate` returns `true` exactly when the stored signature is
the issuer key's signature over the reconstructed message. -/
theorem verifyCertificate_eq (cert ca : Certificate) :
    verifyCertificate cert ca =
      decide (getSignature cert = getPublicKey ca ++
        (packBytes 255 (getName cert) ++ packBytes 32 (getPublicKey cert))) := by
  by_cases h : getSignature cert = getPublicKey ca ++
      (packBytes 255 (getName cert) ++ packBytes 32 (getPublicKey cert))
  · simp [verifyCertificate, verifyCertificateE, ed25519VerifyE, h]
  · rw [decide_eq_false h]
    simp only [verifyCertificate, verifyCertificateE, ed25519VerifyE, if_neg h]
    by_cases hc : (getSignature cert).length = (getPublicKey ca).length +
        (packBytes 255 (getName cert) ++ packBytes 32 (getPublicKey cert)).length
    · rw [if_neg (fun hn => hn hc)]
    · rw [if_pos hc]

/-- `verify_challenge` returns `true` exactly when the signature is the
certificate key's signature over the challenge. -/
theorem verifyChallenge_eq (challenge sig : List Nat) (cert : Certificate) :
    verifyChallenge challenge sig cert =
      decide (sig = getPublicKey cert ++ challenge) := by
  by_cases h : sig = getPublicKey cert ++ challenge
  · simp [verifyChallenge, verifyChallengeE, ed25519VerifyE, h]
  · rw [decide_eq_false h]
    simp only [verifyChallenge, verifyChallengeE, ed25519VerifyE, if_neg h]
    by_cases hc : sig.length = (getPublicKey cert).length + challenge.length
    · rw [if_neg (fun hn => hn hc)]
    · rw [if_pos hc]

/-- The adjacent-pair links of a chain, expressed index-wise. -/
theorem all_adjacent_pairs (f : Certificate × Certificate → Bool) :
    ∀ l : List Certificate,
      ((l.zip l.tail).all f = true ↔
        ∀ i, (hi : i + 1 < l.length) →
          f (l.get ⟨i, Nat.lt_of_succ_lt hi⟩, l.get ⟨i + 1, hi⟩) = true)
  | [] => by simp
  | [a] => by simp
  | a :: b :: t => by
    have ih := all_adjacent_pairs f (b :: t)
    simp only [List.tail_cons, List.zip_cons_cons, List.all_cons,
      Bool.and_eq_true] at ih ⊢
    rw [ih]
    constructor
    · rintro ⟨hab, hrest⟩ i hi
      match i with
      | 0 => exact hab
      | j + 1 =>
        exact hrest j (by simpa using hi)
    · intro H
      refine ⟨H 0 (by simp), fun j hj => H (j + 1) (by simpa using hj)⟩

/-- Stripping at the first null after packing a null-free value recovers
the value. -/
theorem ntv_packBytes (name : List Nat)
    (h : (nullTerminatedValue name).length ≤ 255) :
    nullTerminatedValue (packBytes 255 (nullTerminatedValue name)) =
      nullTerminatedValue name := by
  unfold packBytes
  rw [List.take_of_length_le h]
  unfold nullTerminatedValue
  rw [takeWhile_append_all _ _ _ (fun x hx => List.mem_takeWhile_imp hx),
    takeWhile_replicate_zero, List.append_nil]

/-- Deserialization of the base64 encoding of a packed 351-byte record. -/
theorem deserialize_b64_append (A B C : List Nat) (hAlen : A.length = 255)
    (hBlen : B.length = 32) (hClen : C.length = 64)
    (hv : ValidBytes ((A ++ B) ++ C)) :
    deserializeCertificate (b64encode ((A ++ B) ++ C)) =
      some (nullTerminatedValue A, B, C) := by
  have hdec : b64decode (b64encode ((A ++ B) ++ C)) = (A ++ B) ++ C :=
    b64decode_b64encode _ hv
  have htake : ((A ++ B) ++ C).take 255 = A := by
    rw [List.append_assoc, show (255 : Nat) = A.length from hAlen.symm]
    exact List.take_left A (B ++ C)
  have hdrop : ((A ++ B) ++ C).drop 255 = B ++ C := by
    rw [List.append_assoc, show (255 : Nat) = A.length from hAlen.symm]
    exact List.drop_left A (B ++ C)
  have htakeB : (B ++ C).take 32 = B := by
    rw [show (32 : Nat) = B.length from hBlen.symm]
    exact List.take_left B C
  have hdropB : (B ++ C).drop 32 = C := by
    rw [show (32 : Nat) = B.length from hBlen.symm]
    exact List.drop_left B C
  have htakeC : C.take 64 = C := List.take_of_length_le (Nat.le_of_eq hClen)
  unfold deserializeCertificate
  rw [hdec, hdrop, hdropB, htake, htakeB, htakeC,
    if_pos (by simp [hAlen, hBlen, hClen])]

/-! ## Claims -/

/-- C5 (amended): the binary round trip recovers the certificate with its
name truncated at the first null byte (instead of only stripping trailing
padding); in particular, for a name containing no null byte the round
trip recovers the certificate exactly. -/
theorem serialize_deserialize_roundtrip (name pk sig : List Nat)
    (hname : ValidBytes name) (hpk : ValidBytes pk) (hsig : ValidBytes sig)
    (hlen : name.length ≤ 255) (hpklen : pk.length = 32)
    (hsiglen : sig.length = 64) :
    deserializeCertificate (serializeCertificate (name, pk, sig)) =
      some (name.takeWhile (fun x => x != 0), pk, sig) ∧
    ((∀ x ∈ name, x ≠ 0) →
      deserializeCertificate (serializeCertificate (name, pk, sig)) =
        some (name, pk, sig)) := by
  have htlen : (nullTerminatedValue name).length ≤ 255 :=
    le_trans (List.takeWhile_sublist _).length_le hlen
  have hv : ValidBytes ((packBytes 255 (nullTerminatedValue name) ++
      packBytes 32 pk) ++ packBytes 64 sig) :=
    validBytes_append _ _
      (validBytes_append _ _
        (validBytes_packBytes _ _ (validBytes_takeWhile _ _ hname))
        (validBytes_packBytes _ _ hpk))
      (validBytes_packBytes _ _ hsig)
  have hmain : deserializeCertificate (serializeCertificate (name, pk, sig)) =
      some (name.takeWhile (fun x => x != 0), pk, sig) := by
    have hser : serializeCertificate (name, pk, sig) =
        b64encode ((packBytes 255 (nullTerminatedValue name) ++
          packBytes 32 pk) ++ packBytes 64 sig) := rfl
    rw [hser, deserialize_b64_append _ _ _ (packBytes_length _ _)
      (packBytes_length _ _) (packBytes_length _ _) hv,
      ntv_packBytes name htlen, packBytes_eq_self 32 pk hpklen,
      packBytes_eq_self 64 sig hsiglen]
    rfl
  refine ⟨hmain, fun h0 => ?_⟩
  rw [hmain, List.takeWhile_eq_self_iff.mpr (fun x hx => by simpa using h0 x hx)]

theorem serialize_deserialize_roundtrip_witness :
    deserializeCertificate (serializeCertificate
        ([104, 105], List.replicate 32 1, List.replicate 64 2)) =
      some ([104, 105], List.replicate 32 1, List.replicate 64 2) :=
  (serialize_deserialize_roundtrip [104, 105] (List.replicate 32 1)
    (List.replicate 64 2) (by decide) (by decide) (by decide) (by decide)
    (by decide) (by decide)).2 (by decide)

/-- C5 counterexample: for the valid certificate with name `[0, 97]`
(two bytes, within the maximum width, 32-byte key, 64-byte signature) the
round trip does not recover the certificate — neither exactly nor with
only trailing padding stripped — because the name is truncated at its
first (embedded) null byte, yielding the empty name. -/
theorem serialize_deserialize_cex :
    ValidBytes [0, 97] ∧ ([0, 97] : List Nat).length ≤ 255 ∧
    (List.replicate 32 1).length = 32 ∧ (List.replicate 64 2).length = 64 ∧
    deserializeCertificate (serializeCertificate
        ([0, 97], List.replicate 32 1, List.replicate 64 2)) ≠
      some (stripTrailingZeros [0, 97], List.replicate 32 1,
        List.replicate 64 2) ∧
    deserializeCertificate (serializeCertificate
        ([0, 97], List.replicate 32 1, List.replicate 64 2)) ≠
      some ([0, 97], List.replicate 32 1, List.replicate 64 2) := by
  decide

/-- C9: the textual round trip is exact — for a certificate whose name is
valid UTF-8 (it decodes to code points `cps` and re-encodes to the same
bytes) and fits the fixed width, decoding the three strings produced by
`encode_certificate` recovers the original name bytes, public-key bytes
and signature. -/
theorem encode_then_decode (name pk sig cps : List Nat)
    (hdec : utf8Decode name = some cps) (henc : utf8Encode cps = name)
    (hpk : ValidBytes pk) (hsig : ValidBytes sig)
    (hlen : name.length ≤ 255) :
    encodeCertificate name pk sig =
      some (cps, b64encode pk, b64encode sig) ∧
    decodeCertificate cps (b64encode pk) (b64encode sig) =
      (name, pk, sig) := by
  constructor
  · simp [encodeCertificate, hdec]
  · simp [decodeCertificate, henc, b64decode_b64encode pk hpk,
      b64decode_b64encode sig hsig]

theorem encode_then_decode_witness :
    decodeCertificate [104, 105] (b64encode [1, 255]) (b64encode [7]) =
      ([104, 105], [1, 255], [7]) :=
  (encode_then_decode [104, 105] [1, 255] [7] [104, 105]
    (by decide) (by decide) (by decide) (by decide) (by decide)).2

/-- C2: a single-certificate chain verifies exactly when the certificate
verifies against its own public key (it is self-signed) and additionally
verifies against at least one trusted certificate; the self-check alone
never suffices. -/
theorem chain_singleton_iff (C : Certificate) (trusted : List Certificate) :
    verifyCertificateChain [C] trusted = some true ↔
      (verifyCertificate C C = true ∧
        ∃ ca ∈ trusted, verifyCertificate C ca = true) := by
  simp [verifyCertificateChain, List.any_eq_true]

/-- C3: on the empty chain, `verify_certificate_chain` does not return a
boolean at all — indexing `chain[0]` raises `IndexError`, modelled as
`none`, an error signal distinct from `some false`. -/
theorem chain_empty_fails (trusted : List Certificate) :
    verifyCertificateChain [] trusted = none := rfl

/-- C10: for a non-empty chain and an empty trusted list the result is
`some false` — the `any` over the empty trust set is `false`, and no
error is raised. -/
theorem chain_empty_trusted_false (chain : List Certificate)
    (h : chain ≠ []) : verifyCertificateChain chain [] = some false := by
  cases chain with
  | nil => exact absurd rfl h
  | cons c rest => simp [verifyCertificateChain]

theorem chain_empty_trusted_false_witness :
    verifyCertificateChain [([1], [2], [3])] [] = some false :=
  chain_empty_trusted_false [([1], [2], [3])] (by simp)

/-- C7: `verify_certificate` never propagates an exception for a
cryptographic failure: its exception-explicit form always lands in `ok`
(the `except` clause catches every error the primitive can raise), and
whenever the primitive signals an error the boolean result is `false`. -/
theorem verify_certificate_no_raise (cert ca : Certificate) :
    verifyCertificateE cert ca = Except.ok (verifyCertificate cert ca) ∧
    ∀ e : PrimError,
      ed25519VerifyE (getPublicKey ca) (getSignature cert)
          (packBytes 255 (getName cert) ++ packBytes 32 (getPublicKey cert)) =
        Except.error e →
      verifyCertificate cert ca = false := by
  constructor
  · rcases hv : ed25519VerifyE (getPublicKey ca) (getSignature cert)
        (packBytes 255 (getName cert) ++ packBytes 32 (getPublicKey cert))
      with e | u
    · cases e <;> simp [verifyCertificate, verifyCertificateE, hv]
    · cases u; simp [verifyCertificate, verifyCertificateE, hv]
  · intro e he
    cases e <;> simp [verifyCertificate, verifyCertificateE, he]

theorem verify_certificate_no_raise_witness :
    verifyCertificate ([1], [2], [3]) ([4], [5], [6]) = false :=
  (verify_certificate_no_raise ([1], [2], [3]) ([4], [5], [6])).2
    PrimError.assertionError (by rfl)

/-- C8: `verify_challenge` never propagates an exception, returns `true`
exactly when the signature is valid over the challenge under the
certificate's public key, and a signature produced by any other private
key yields `false`. -/
theorem verify_challenge_iff_valid (challenge sig : List Nat)
    (cert : Certificate) :
    verifyChallengeE challenge sig cert =
      Except.ok (verifyChallenge challenge sig cert) ∧
    (verifyChallenge challenge sig cert = true ↔
      sig = ed25519Sign (getPublicKey cert) challenge) ∧
    ∀ sk : List Nat, sk ≠ getPublicKey cert →
      verifyChallenge challenge (ed25519Sign sk challenge) cert = false := by
  refine ⟨?_, ?_, ?_⟩
  · rcases hv : ed25519VerifyE (getPublicKey cert) sig challenge with e | u
    · cases e <;> simp [verifyChallenge, verifyChallengeE, hv]
    · cases u; simp [verifyChallenge, verifyChallengeE, hv]
  · rw [verifyChallenge_eq, ed25519Sign]
    simp
  · intro sk hsk
    rw [verifyChallenge_eq, ed25519Sign]
    simp only [decide_eq_false_iff_not]
    intro hc
    exact hsk (List.append_cancel_right hc)

theorem verify_challenge_iff_valid_witness :
    verifyChallenge [1, 2] (ed25519Sign [9] [1, 2]) ([7], [8], [6]) = false :=
  (verify_challenge_iff_valid [1, 2] [0] ([7], [8], [6])).2.2 [9] (by decide)

/-- C1: a chain of length at least two verifies exactly when every
adjacent pair `(chain[i], chain[i+1])` passes `verify_certificate` and the
last certificate verifies against at least one trusted certificate. -/
theorem chain_links_and_anchor_iff (chain trusted : List Certificate)
    (h : 2 ≤ chain.length) :
    verifyCertificateChain chain trusted = some true ↔
      ((∀ i, (hi : i + 1 < chain.length) →
          verifyCertificate (chain.get ⟨i, Nat.lt_of_succ_lt hi⟩)
            (chain.get ⟨i + 1, hi⟩) = true) ∧
        ∃ ca ∈ trusted,
          verifyCertificate
            (chain.getLast (by rintro rfl; simp at h)) ca = true) := by
  cases chain with
  | nil => simp at h
  | cons c rest =>
    cases rest with
    | nil => simp at h
    | cons d t =>
      rw [verifyCertificateChain]
      simp only [List.isEmpty_cons, Option.some.injEq, Bool.and_eq_true,
        Bool.false_eq_true, if_false]
      exact and_congr
        (all_adjacent_pairs (fun l => verifyCertificate l.1 l.2) (c :: d :: t))
        (List.any_eq_true)

theorem chain_links_and_anchor_iff_witness :
    verifyCertificateChain
        [createCertificate [108] [9] [7], createCertificate [105] [7] [3]]
        [([99], [3], [0])] = some true := by
  refine (chain_links_and_anchor_iff
      [createCertificate [108] [9] [7], createCertificate [105] [7] [3]]
      [([99], [3], [0])] (by decide)).mpr
    ⟨?_, ⟨([99], [3], [0]), by simp, by decide⟩⟩
  intro i hi
  have hi0 : i = 0 := by simp at hi; omega
  subst hi0
  show verifyCertificate (createCertificate [108] [9] [7])
    (createCertificate [105] [7] [3]) = true
  decide

/-- Packing a name that is its null-truncation plus trailing nulls gives
the same fixed-width field as packing its null-truncation. -/
theorem packBytes_pad_eq (name : List Nat) (hlen : name.length ≤ 255)
    (k : Nat) (hk : name = nullTerminatedValue name ++ List.replicate k 0) :
    packBytes 255 (nullTerminatedValue name) = packBytes 255 name := by
  obtain ⟨t, ht⟩ : ∃ t, nullTerminatedValue name = t := ⟨_, rfl⟩
  rw [ht]
  rw [ht] at hk
  subst hk
  simp only [List.length_append, List.length_replicate] at hlen
  have hlt : t.length ≤ 255 := by omega
  unfold packBytes
  rw [List.take_of_length_le hlt,
    List.take_of_length_le (by simp; omega),
    List.length_append, List.length_replicate, List.append_assoc,
    ← List.replicate_add]
  congr 2
  omega

/-- C4 (amended): a certificate created over a name of at most 255 bytes
that carries no non-null byte after a null byte (it is its null-truncation
plus trailing null padding — in particular any null-free name) verifies
against any certificate carrying the issuer's public key. -/
theorem create_then_verify (name pk sk : List Nat) (issuer : Certificate)
    (hlen : name.length ≤ 255)
    (hpad : ∃ k, name = nullTerminatedValue name ++ List.replicate k 0)
    (hiss : getPublicKey issuer = sk) :
    verifyCertificate (createCertificate name pk sk) issuer = true := by
  obtain ⟨k, hk⟩ := hpad
  have hpack := packBytes_pad_eq name hlen k hk
  rw [verifyCertificate_eq]
  have h1 : getName (createCertificate name pk sk) = nullTerminatedValue name := rfl
  have h2 : getPublicKey (createCertificate name pk sk) = pk := rfl
  have h3 : getSignature (createCertificate name pk sk) =
      ed25519Sign sk (packBytes 255 name ++ packBytes 32 pk) := rfl
  rw [h1, h2, h3, hiss, hpack, ed25519Sign]
  simp

theorem create_then_verify_witness :
    verifyCertificate (createCertificate [97, 98] [9] [5]) ([1], [5], [2]) =
      true :=
  create_then_verify [97, 98] [9] [5] ([1], [5], [2]) (by decide)
    ⟨0, by decide⟩ rfl

/-- C4 counterexample: the two-byte name `[0, 1]` is within the maximum
width, yet the certificate created over it does not verify against its
issuer's key — `get_name` truncates the name at its first (embedded) null
byte, so verification reconstructs a different message than was signed. -/
theorem create_then_verify_cex :
    ([0, 1] : List Nat).length ≤ 255 ∧
    getPublicKey ([1], [5], [2]) = [5] ∧
    verifyCertificate (createCertificate [0, 1] [9] [5]) ([1], [5], [2]) =
      false := by
  refine ⟨by decide, rfl, by decide⟩

/-- C6 (amended): `get_name` on a created certificate returns the supplied
name truncated at its first null byte (not merely with trailing padding
stripped); for a name containing no null byte it returns the name
exactly. -/
theorem getName_after_create (name pk sk : List Nat)
    (hlen : name.length ≤ 255) :
    getName (createCertificate name pk sk) =
      name.takeWhile (fun x => x != 0) ∧
    ((∀ x ∈ name, x ≠ 0) → getName (createCertificate name pk sk) = name) := by
  refine ⟨rfl, fun h0 => ?_⟩
  exact List.takeWhile_eq_self_iff.mpr (fun x hx => by simpa using h0 x hx)

theorem getName_after_create_witness :
    getName (createCertificate [97, 98] [1] [2]) = [97, 98] :=
  (getName_after_create [97, 98] [1] [2] (by decide)).2 (by decide)

/-- C6 counterexample: for the name `[97, 0, 98]` the accessor returns
`[97]`, which is neither the supplied name nor the supplied name with
trailing null bytes stripped. -/
theorem getName_after_create_cex :
    getName (createCertificate [97, 0, 98] [1] [2]) ≠
      stripTrailingZeros [97, 0, 98] ∧
    getName (createCertificate [97, 0, 98] [1] [2]) ≠ [97, 0, 98] := by
  decide

end Phraseless
